import Mathlib

/-!
Verification of the adaptive range extractor of `src/main.py`.

Time model: Python `datetime` / `timedelta` values have microsecond
resolution, so instants and durations are embedded as integers counting
microseconds.  For a positive divisor, Python's `divmod` is floor based,
which agrees with Lean's `Int` division and modulus, so `d / 2` and
`d % 2` below mean exactly what Python's `divmod(d, 2)` computes.
-/

namespace NewRelli

/-- `MAX_RESULTS = 5000` of `src/main.py` line 12. -/
def MAX_RESULTS : Nat := 5000

/-- `MIN_INTERVAL = timedelta(minutes=1)` of `src/main.py` line 13,
in microseconds. -/
def MIN_INTERVAL : Int := 60 * 1000000

/-- `timedelta(hours=24)` of `src/main.py` line 350, in microseconds. -/
def HOURS_24 : Int := 86400 * 1000000

/-- A record returned by the query service: a semi-structured mapping that
may carry a millisecond-epoch `timestamp` field (`none` when the key is
absent); the remaining fields are opaque to the extractor and are bundled
into `payload`. -/
structure Record where
  timestamp : Option Int
  payload : String := ""
deriving DecidableEq, Repr

/-- The pair `(results, error)` returned by `fetch_newrelic_data` and
`fetch_recursive` in `src/main.py`. -/
abbrev Page := List Record × Option String

/-- The query service client, abstracted over the windows it is called on:
`fetch_newrelic_data` for a fixed filter, as a function of the window. -/
abbrev Client := Int → Int → Page

/-- Division of a duration by 2 as Python performs it for
`timedelta / 2` (`_divide_and_round`): floor-divide by two, and round a
half microsecond to the even neighbour. -/
def halfRoundEven (d : Int) : Int :=
  if d % 2 = 1 ∧ (d / 2) % 2 = 1 then d / 2 + 1 else d / 2

/-- `mid_time = start_time + (end_time - start_time) / 2`
(`src/main.py` line 92). -/
def mid_time (start_time end_time : Int) : Int :=
  start_time + halfRoundEven (end_time - start_time)

/-- `fetch_recursive` of `src/main.py` lines 81–99, parameterised over the
client (`fetch_newrelic_data` applied to a fixed `company_id`). -/
def fetch_recursive (client : Client) (start_time end_time : Int) : Page :=
  if end_time - start_time ≤ MIN_INTERVAL then
    client start_time end_time
  else
    match client start_time end_time with
    | (results, some error) => (results, some error)
    | (results, none) =>
      if results.length < MAX_RESULTS then
        (results, none)
      else
        match fetch_recursive client start_time (mid_time start_time end_time) with
        | (left_results, some left_error) => (left_results, some left_error)
        | (left_results, none) =>
          match fetch_recursive client (mid_time start_time end_time) end_time with
          | (right_results, some right_error) => (right_results, some right_error)
          | (right_results, none) => (left_results ++ right_results, none)
termination_by (end_time - start_time).toNat
decreasing_by
  all_goals
    unfold mid_time halfRoundEven
    unfold MIN_INTERVAL at *
    split <;> omega

/-- The windows `fetch_recursive` passes to the client, in call order.
This observer mirrors the control flow of `fetch_recursive` exactly: one
call per window visited, and on a failing left branch the right branch is
never visited. -/
def fetch_calls (client : Client) (start_time end_time : Int) :
    List (Int × Int) :=
  if end_time - start_time ≤ MIN_INTERVAL then
    [(start_time, end_time)]
  else
    match client start_time end_time with
    | (_, some _) => [(start_time, end_time)]
    | (results, none) =>
      if results.length < MAX_RESULTS then
        [(start_time, end_time)]
      else
        (start_time, end_time) ::
          (match fetch_recursive client start_time (mid_time start_time end_time) with
           | (_, some _) => fetch_calls client start_time (mid_time start_time end_time)
           | (_, none) =>
             fetch_calls client start_time (mid_time start_time end_time) ++
               fetch_calls client (mid_time start_time end_time) end_time)
termination_by (end_time - start_time).toNat
decreasing_by
  all_goals
    unfold mid_time halfRoundEven
    unfold MIN_INTERVAL at *
    split <;> omega

/-- The nesting depth of recursive `fetch_recursive` calls below a window:
`0` where the window is accepted without subdividing, and one more than
the deeper of the two halves at a split.  Mirrors the control flow of
`fetch_recursive` exactly. -/
def fetch_depth (client : Client) (start_time end_time : Int) : Nat :=
  if end_time - start_time ≤ MIN_INTERVAL then 0
  else
    match client start_time end_time with
    | (_, some _) => 0
    | (results, none) =>
      if results.length < MAX_RESULTS then 0
      else
        1 + max (fetch_depth client start_time (mid_time start_time end_time))
            (fetch_depth client (mid_time start_time end_time) end_time)
termination_by (end_time - start_time).toNat
decreasing_by
  all_goals
    unfold mid_time halfRoundEven
    unfold MIN_INTERVAL at *
    split <;> omega

/-- The leaf windows of the subdivision, left to right: the windows whose
page `fetch_recursive` accepts without subdividing further.  Mirrors the
guards of `fetch_recursive`; the error arm never fires under the
no-client-error hypothesis of the tiling theorem. -/
def fetch_leaves (client : Client) (start_time end_time : Int) :
    List (Int × Int) :=
  if end_time - start_time ≤ MIN_INTERVAL then [(start_time, end_time)]
  else
    match client start_time end_time with
    | (_, some _) => [(start_time, end_time)]
    | (results, none) =>
      if results.length < MAX_RESULTS then [(start_time, end_time)]
      else
        fetch_leaves client start_time (mid_time start_time end_time) ++
          fetch_leaves client (mid_time start_time end_time) end_time
termination_by (end_time - start_time).toNat
decreasing_by
  all_goals
    unfold mid_time halfRoundEven
    unfold MIN_INTERVAL at *
    split <;> omega

/-- `tiles a ws b`: the half-open windows `ws` exactly tile `[a, b)` in
order: each window starts where the previous one ended, the first starts
at `a`, the last ends at `b`, and every window is non-degenerate in the
ordered sense (`start ≤ end`). -/
def tiles : Int → List (Int × Int) → Int → Prop
  | a, [], b => a = b
  | a, w :: rest, b => w.1 = a ∧ w.1 ≤ w.2 ∧ tiles w.2 rest b

/-- A JSON value, as produced by `response.json()`. -/
inductive Json
  | null
  | bool (b : Bool)
  | num (n : Int)
  | str (s : String)
  | arr (xs : List Json)
  | obj (kvs : List (String × Json))

/-- Is a JSON value a Python `dict`? -/
def Json.isObj : Json → Bool
  | .obj _ => true
  | _ => false

/-- Python `value.get(key, default)`: on a `dict`, the stored value when
the key is present (even when that value is `null`) and the default
otherwise; on any non-`dict` value an `AttributeError` is raised, which
`fetch_newrelic_data` does not catch — modelled as `none`. -/
def dict_get (j : Json) (key : String) (default : Json) : Option Json :=
  match j with
  | .obj kvs => some ((kvs.lookup key).getD default)
  | _ => none

/-- The outcome of the one `requests.post` call of `fetch_newrelic_data`:
either a `requests.RequestException` raised during the request, or an
HTTP response carrying a status code and a body (`none` when the body is
not valid JSON, so that `response.json()` raises `ValueError`). -/
inductive Transport
  | exc (msg : String)
  | resp (status : Nat) (body : Option Json)

/-- `fetch_newrelic_data` of `src/main.py` lines 33–78, from the
`requests.post` call onwards, as a function of the transport outcome for
its single HTTP request.  `response.raise_for_status()` raises
`requests.HTTPError` (a `RequestException`) exactly for status codes in
`[400, 600)` (client and server error classes; `http.client` accepts any
status up to 999, and statuses outside that band fall through to the
parse path); the message is abbreviated here to `"HTTP <status>"` inside
the code's `f"Erro na requisição: ..."` wrapper.  The overall `none`
result
models an exception escaping the function: an `AttributeError` from
calling `.get` on a non-`dict` intermediate value, which no `except`
clause of the source catches. -/
def fetch_newrelic_data (t : Transport) : Option (Json × Option String) :=
  match t with
  | .exc msg => some (.arr [], some ("Erro na requisição: " ++ msg))
  | .resp status body =>
    if 400 ≤ status ∧ status < 600 then
      some (.arr [], some ("Erro na requisição: HTTP " ++ toString status))
    else
      match body with
      | none =>
        some (.arr [],
          some ("Erro: Resposta da API não é um JSON válido (" ++
            toString status ++ ")"))
      | some data =>
        if data.isObj then
          (do
            let d1 ← dict_get data "data" (.obj [])
            let d2 ← dict_get d1 "actor" (.obj [])
            let d3 ← dict_get d2 "account" (.obj [])
            let d4 ← dict_get d3 "nrql" (.obj [])
            let results ← dict_get d4 "results" (.arr [])
            some (results, none))
        else
          some (.arr [], some "Erro: Resposta da API não contém um dicionário válido")

/-- The sort key of `src/main.py` line 362:
`int(r.get("timestamp", 0))` — the record's millisecond timestamp, or
`0` when the field is absent. -/
def timestamp_key (r : Record) : Int := r.timestamp.getD 0

/-- `results.sort(key=lambda r: int(r.get("timestamp", 0)))` of
`src/main.py` line 362: Python's stable sort, embedded as the stable
`List.mergeSort` under the same key. -/
def sort_by_timestamp (results : List Record) : List Record :=
  results.mergeSort (fun a b => decide (timestamp_key a ≤ timestamp_key b))

/-- Python `str.strip()` with no arguments: the string with leading and
trailing whitespace removed.  Stated over the character list so that it
evaluates inside the kernel. -/
def strip (s : String) : String :=
  String.mk (((s.data.dropWhile Char.isWhitespace).reverse.dropWhile
    Char.isWhitespace).reverse)

/-- What the `/csv-download` route hands back to the browser: either the
rendered `HTML_CSV_DOWNLOAD` page (with its `error` and `results`
template variables) or the CSV attachment built from the sorted
records. -/
inductive CsvResponse
  | page (error : Option String) (results : Option (List Record))
  | csvFile (rows : List Record)
deriving DecidableEq

/-- The POST branch of `csv_download` (`src/main.py` lines 328–393) from
the `company_id` validation onwards, for a request whose two
`datetime-local` fields parse successfully to the UTC instants
`start_date` and `end_date` (a field that fails to parse is answered
earlier with a parse-error page and no client call, and a GET request
just renders the empty form; neither path is modelled here). -/
def csv_download (client : Client) (company_id : String)
    (start_date end_date : Int) : CsvResponse :=
  if company_id = "" ∨ strip company_id = "" then
    .page (some "Company ID não pode ser vazio.") none
  else if HOURS_24 < end_date - start_date then
    .page (some "O intervalo entre as datas não pode exceder 24 horas.") none
  else
    match fetch_recursive client start_date end_date with
    | (results, some fetch_error) => .page (some fetch_error) (some results)
    | (results, none) =>
      if results.isEmpty then .page none (some results)
      else .csvFile (sort_by_timestamp results)

/-- The windows the `/csv-download` route passes to the client: none when
validation rejects the request, and exactly the `fetch_recursive` trace
otherwise. -/
def csv_download_calls (client : Client) (company_id : String)
    (start_date end_date : Int) : List (Int × Int) :=
  if company_id = "" ∨ strip company_id = "" then []
  else if HOURS_24 < end_date - start_date then []
  else fetch_calls client start_date end_date

/-- A client that answers every window with an empty successful page. -/
def emptyClient : Client := fun _ _ => ([], none)

/-- A client that answers every window, including degenerate ones, with
one record and no error. -/
def oneRecordClient : Client := fun _ _ => ([{ timestamp := some 5 }], none)

/-- A client that fails on every window with an empty record list, the
way `fetch_newrelic_data` reports errors. -/
def errClient : Client := fun _ _ => ([], some "boom")

/-- For a duration of at least two microseconds the rounded half is
strictly between `0` and `d`. -/
theorem halfRoundEven_bounds (d : Int) (h : 2 ≤ d) :
    1 ≤ halfRoundEven d ∧ halfRoundEven d ≤ d - 1 := by
  unfold halfRoundEven
  split <;> omega

/-- Halving bound used for the depth estimate: if `d ≤ 2 * M` then both
the rounded half and its complement are at most `M`. -/
theorem halfRoundEven_halves (d M : Int) (h : d ≤ 2 * M) :
    halfRoundEven d ≤ M ∧ d - halfRoundEven d ≤ M := by
  unfold halfRoundEven
  split <;> omega

/-- The midpoint falls strictly between the endpoints of any window wider
than the granularity floor. -/
theorem mid_time_between (s e : Int) (h : MIN_INTERVAL < e - s) :
    s < mid_time s e ∧ mid_time s e < e := by
  have hb := halfRoundEven_bounds (e - s) (by unfold MIN_INTERVAL at h; omega)
  unfold mid_time
  omega

/-- Left window size strictly decreases at a split. -/
theorem mid_time_dec_left (s e : Int) (h : ¬ e - s ≤ MIN_INTERVAL) :
    (mid_time s e - s).toNat < (e - s).toNat := by
  have hb := halfRoundEven_bounds (e - s) (by unfold MIN_INTERVAL at h; omega)
  unfold mid_time
  omega

/-- Right window size strictly decreases at a split. -/
theorem mid_time_dec_right (s e : Int) (h : ¬ e - s ≤ MIN_INTERVAL) :
    (e - mid_time s e).toNat < (e - s).toNat := by
  have hb := halfRoundEven_bounds (e - s) (by unfold MIN_INTERVAL at h; omega)
  unfold mid_time
  omega

/-- The depth of the subdivision recursion is at most `k` for any window
of duration at most `MIN_INTERVAL * 2 ^ k`, whatever the client
answers. -/
theorem fetch_depth_le (c : Client) :
    ∀ (k : Nat) (s e : Int), e - s ≤ MIN_INTERVAL * 2 ^ k →
      fetch_depth c s e ≤ k := by
  intro k
  induction k with
  | zero =>
    intro s e h
    rw [fetch_depth, if_pos (by simpa using h)]
  | succ k ih =>
    intro s e h
    rw [fetch_depth]
    by_cases hA : e - s ≤ MIN_INTERVAL
    · rw [if_pos hA]
      exact Nat.zero_le _
    · rw [if_neg hA]
      rcases hc : c s e with ⟨results, err⟩
      cases err with
      | some msg => simp
      | none =>
        simp only []
        by_cases hL : results.length < MAX_RESULTS
        · simp [hL]
        · simp only [if_neg hL]
          have h2 : e - s ≤ 2 * (MIN_INTERVAL * 2 ^ k) :=
            le_of_le_of_eq h (by ring)
          have hh := halfRoundEven_halves (e - s) (MIN_INTERVAL * 2 ^ k) h2
          have hdl := ih s (mid_time s e) (by unfold mid_time; omega)
          have hdr := ih (mid_time s e) e (by unfold mid_time; omega)
          omega

/-- C1: for a window strictly wider than the floor, `fetch_recursive`
first calls the client on the whole window; a successful page of fewer
than `MAX_RESULTS` records is returned as-is, and a successful page of
exactly `MAX_RESULTS` records yields the concatenation of the two
recursive extractions at `mid_time` (stated on the success path, whose
error cases claim C3 governs).  For a window at or below the floor the
single client page is returned as-is, even when it holds exactly
`MAX_RESULTS` records. -/
theorem extract_subdivision (c : Client) (s e : Int) :
    (e - s ≤ MIN_INTERVAL → fetch_recursive c s e = c s e) ∧
    (MIN_INTERVAL < e - s →
      (fetch_calls c s e).head? = some (s, e) ∧
      ∀ page, c s e = (page, none) →
        (page.length < MAX_RESULTS → fetch_recursive c s e = (page, none)) ∧
        (page.length = MAX_RESULTS →
          (fetch_recursive c s (mid_time s e)).2 = none →
          (fetch_recursive c (mid_time s e) e).2 = none →
          fetch_recursive c s e =
            ((fetch_recursive c s (mid_time s e)).1 ++
              (fetch_recursive c (mid_time s e) e).1, none))) := by
  constructor
  · intro h
    rw [fetch_recursive, if_pos h]
  · intro h
    constructor
    · rw [fetch_calls, if_neg (by omega)]
      rcases hc : c s e with ⟨rs, err⟩
      cases err with
      | some msg => simp
      | none =>
        simp only []
        split <;> simp
    · intro page hpage
      constructor
      · intro hlen
        rw [fetch_recursive, if_neg (by omega), hpage]
        simp [hlen]
      · intro hlen hl hr
        rcases hL : fetch_recursive c s (mid_time s e) with ⟨lr, le⟩
        rcases hR : fetch_recursive c (mid_time s e) e with ⟨rr, re⟩
        rw [hL] at hl
        rw [hR] at hr
        simp only at hl hr
        subst hl
        subst hr
        rw [fetch_recursive, if_neg (by omega), hpage]
        simp only [hlen, lt_irrefl, if_false, hL, hR]

/-- C1 witness: a two-minute window against the always-empty client. -/
theorem extract_subdivision_witness :
    fetch_recursive emptyClient 0 120000000 = ([], none) ∧
    (fetch_calls emptyClient 0 120000000).head? = some (0, 120000000) := by
  have h := extract_subdivision emptyClient 0 120000000
  have hgt : MIN_INTERVAL < (120000000 : Int) - 0 := by norm_num [MIN_INTERVAL]
  exact ⟨((h.2 hgt).2 [] rfl).1 (by norm_num [MAX_RESULTS]), (h.2 hgt).1⟩

/-- C2: the subdivision terminates: the midpoint is strictly between the
endpoints of every window wider than the floor, both halves are strictly
smaller than the window, and the recursion depth is at most `k` whenever
the duration is at most `MIN_INTERVAL * 2 ^ k` — that is, at most the
base-two logarithm, rounded up, of the duration divided by the
granularity floor, whatever pages the client reports (including exactly
`MAX_RESULTS` records on every call). -/
theorem extract_termination :
    (∀ s e : Int, MIN_INTERVAL < e - s →
      s < mid_time s e ∧ mid_time s e < e) ∧
    (∀ s e : Int, MIN_INTERVAL < e - s →
      (mid_time s e - s).toNat < (e - s).toNat ∧
      (e - mid_time s e).toNat < (e - s).toNat) ∧
    (∀ (c : Client) (s e : Int) (k : Nat),
      e - s ≤ MIN_INTERVAL * 2 ^ k → fetch_depth c s e ≤ k) :=
  ⟨mid_time_between,
   fun s e h =>
     ⟨mid_time_dec_left s e (by omega), mid_time_dec_right s e (by omega)⟩,
   fun c s e k h => fetch_depth_le c k s e h⟩

/-- C2 witness: the midpoint of a two-minute window is strictly inside
it, and the depth bound instantiated at `k = 1` (the bound holds for
every client, here the always-empty one). -/
theorem extract_termination_witness :
    ((0 : Int) < mid_time 0 120000000 ∧ mid_time 0 120000000 < 120000000) ∧
    fetch_depth emptyClient 0 120000000 ≤ 1 :=
  ⟨extract_termination.1 0 120000000 (by norm_num [MIN_INTERVAL]),
   extract_termination.2.2 emptyClient 0 120000000 1
     (by norm_num [MIN_INTERVAL])⟩

/-- C5 counterexample: at the degenerate window `[0, 0)` the extractor
does call the client — against a client answering one record it returns
that record, and its call trace is non-empty — refuting both halves of
the claim (empty result, zero client calls). -/
theorem empty_window_cex :
    (fetch_recursive oneRecordClient 0 0).1 ≠ [] ∧
    fetch_calls oneRecordClient 0 0 ≠ [] := by
  rw [fetch_recursive, fetch_calls]
  norm_num [MIN_INTERVAL, oneRecordClient]

/-- C5 amended: a window with `start = end` has non-positive duration,
hence is at or below the granularity floor, so `fetch_recursive` issues
exactly one client call on that degenerate window and returns its page
as-is; the result is empty only when the client answers so. -/
theorem empty_window_single_call (c : Client) (s : Int) :
    fetch_recursive c s s = c s s ∧ fetch_calls c s s = [(s, s)] := by
  rw [fetch_recursive, fetch_calls]
  norm_num [MIN_INTERVAL]

/-- When an extraction succeeds, every client call in its trace
succeeded. -/
theorem fetch_ok_calls (c : Client) (s e : Int)
    (h : (fetch_recursive c s e).2 = none) :
    ∀ u ∈ fetch_calls c s e, (c u.1 u.2).2 = none := by
  by_cases hA : e - s ≤ MIN_INTERVAL
  · rw [fetch_recursive, if_pos hA] at h
    rw [fetch_calls, if_pos hA]
    intro u hu
    simp only [List.mem_singleton] at hu
    subst hu
    exact h
  · rw [fetch_recursive, if_neg hA] at h
    rw [fetch_calls, if_neg hA]
    rcases hc : c s e with ⟨rs, err⟩
    rw [hc] at h
    cases err with
    | some msg => simp at h
    | none =>
      by_cases hl : rs.length < MAX_RESULTS
      · simp only [if_pos hl] at h ⊢
        intro u hu
        simp only [List.mem_singleton] at hu
        subst hu
        simp [hc]
      · simp only [if_neg hl] at h ⊢
        rcases hL : fetch_recursive c s (mid_time s e) with ⟨lr, le⟩
        rw [hL] at h
        cases le with
        | some msg => simp at h
        | none =>
          rcases hR : fetch_recursive c (mid_time s e) e with ⟨rr, re⟩
          rw [hR] at h
          cases re with
          | some msg => simp at h
          | none =>
            have ihl := fetch_ok_calls c s (mid_time s e) (by rw [hL])
            have ihr := fetch_ok_calls c (mid_time s e) e (by rw [hR])
            intro u hu
            simp only [List.mem_cons, List.mem_append] at hu
            rcases hu with hu | hu | hu
            · subst hu
              simp [hc]
            · exact ihl u hu
            · exact ihr u hu
termination_by (e - s).toNat
decreasing_by
  all_goals first
    | exact mid_time_dec_left s e (by assumption)
    | exact mid_time_dec_right s e (by assumption)

/-- C3: for a client that reports errors the way `fetch_newrelic_data`
does (an empty list alongside every error), a failing extraction returns
the error with an empty record list, and that error is the first one
encountered in left-before-right depth-first order: the trace of client
calls ends at the failing window and every earlier call succeeded. -/
theorem extract_fail_fast (c : Client)
    (hwf : ∀ a b : Int, (c a b).2.isSome → (c a b).1 = [])
    (s e : Int) (err : String)
    (h : (fetch_recursive c s e).2 = some err) :
    (fetch_recursive c s e).1 = [] ∧
    ∃ pre w, fetch_calls c s e = pre ++ [w] ∧
      (∀ u ∈ pre, (c u.1 u.2).2 = none) ∧
      (c w.1 w.2).2 = some err := by
  by_cases hA : e - s ≤ MIN_INTERVAL
  · rw [fetch_recursive, if_pos hA] at h ⊢
    rw [fetch_calls, if_pos hA]
    refine ⟨hwf s e (by rw [h]; rfl), [], (s, e), by simp, by simp, h⟩
  · rw [fetch_recursive, if_neg hA] at h ⊢
    rw [fetch_calls, if_neg hA]
    rcases hc : c s e with ⟨rs, errc⟩
    rw [hc] at h
    cases errc with
    | some msg =>
      simp only [Option.some.injEq] at h
      subst h
      have hnil : rs = [] := by
        have := hwf s e (by rw [hc]; rfl)
        rw [hc] at this
        exact this
      exact ⟨hnil, [], (s, e), by simp, by simp, by simp [hc]⟩
    | none =>
      by_cases hl : rs.length < MAX_RESULTS
      · simp only [if_pos hl] at h
        simp at h
      · simp only [if_neg hl] at h ⊢
        rcases hL : fetch_recursive c s (mid_time s e) with ⟨lr, le⟩
        rw [hL] at h
        cases le with
        | some msg =>
          simp only [Option.some.injEq] at h
          subst h
          obtain ⟨h1, pre, w, hcalls, hpre, hw⟩ :=
            extract_fail_fast c hwf s (mid_time s e) msg (by rw [hL])
          rw [hL] at h1
          refine ⟨h1, (s, e) :: pre, w, by rw [hcalls]; simp, ?_, hw⟩
          intro u hu
          rcases List.mem_cons.mp hu with hu | hu
          · subst hu
            simp [hc]
          · exact hpre u hu
        | none =>
          rcases hR : fetch_recursive c (mid_time s e) e with ⟨rr, re⟩
          rw [hR] at h
          cases re with
          | some msg =>
            simp only [Option.some.injEq] at h
            subst h
            obtain ⟨h1, pre, w, hcalls, hpre, hw⟩ :=
              extract_fail_fast c hwf (mid_time s e) e msg (by rw [hR])
            rw [hR] at h1
            refine ⟨h1, (s, e) :: (fetch_calls c s (mid_time s e) ++ pre), w,
              by rw [hcalls]; simp, ?_, hw⟩
            intro u hu
            rcases List.mem_cons.mp hu with hu | hu
            · subst hu
              simp [hc]
            · rcases List.mem_append.mp hu with hu | hu
              · exact fetch_ok_calls c s (mid_time s e) (by rw [hL]) u hu
              · exact hpre u hu
          | none => simp at h
termination_by (e - s).toNat
decreasing_by
  all_goals first
    | exact mid_time_dec_left s e (by assumption)
    | exact mid_time_dec_right s e (by assumption)

/-- C3 witness: against the always-failing client the extraction of
`[0, 0)` fails fast. -/
theorem extract_fail_fast_witness :
    (fetch_recursive errClient 0 0).1 = [] ∧
    ∃ pre w, fetch_calls errClient 0 0 = pre ++ [w] ∧
      (∀ u ∈ pre, (errClient u.1 u.2).2 = none) ∧
      (errClient w.1 w.2).2 = some "boom" :=
  extract_fail_fast errClient (fun _ _ _ => rfl) 0 0 "boom"
    (by rw [fetch_recursive]; norm_num [MIN_INTERVAL, errClient])

/-- Tilings compose at a shared boundary. -/
theorem tiles_append (l : List (Int × Int)) :
    ∀ (a m b : Int) (r : List (Int × Int)),
      tiles a l m → tiles m r b → tiles a (l ++ r) b := by
  induction l with
  | nil =>
    intro a m b r hl hr
    cases hl
    simpa using hr
  | cons w rest ih =>
    intro a m b r hl hr
    obtain ⟨h1, h2, h3⟩ := hl
    exact ⟨h1, h2, ih w.2 m b r h3 hr⟩

/-- A tiling's endpoints are ordered. -/
theorem tiles_le (ws : List (Int × Int)) :
    ∀ a b : Int, tiles a ws b → a ≤ b := by
  induction ws with
  | nil =>
    intro a b h
    cases h
    exact le_refl _
  | cons w rest ih =>
    intro a b h
    obtain ⟨h1, h2, h3⟩ := h
    have := ih w.2 b h3
    omega

/-- Every window of a tiling lies inside the tiled interval. -/
theorem tiles_bounds (ws : List (Int × Int)) :
    ∀ a b : Int, tiles a ws b → ∀ w ∈ ws, a ≤ w.1 ∧ w.2 ≤ b := by
  induction ws with
  | nil => intro a b _ w hw; cases hw
  | cons w rest ih =>
    intro a b h u hu
    obtain ⟨h1, h2, h3⟩ := h
    rcases List.mem_cons.mp hu with hu | hu
    · subst hu
      exact ⟨le_of_eq h1.symm, tiles_le rest u.2 b h3⟩
    · have := ih w.2 b h3 u hu
      omega

/-- Consecutive windows of a tiling share their boundary instant. -/
theorem tiles_chain (ws : List (Int × Int)) :
    ∀ a b : Int, tiles a ws b → List.Chain' (fun u v => u.2 = v.1) ws := by
  induction ws with
  | nil => intro a b _; exact List.chain'_nil
  | cons w rest ih =>
    intro a b h
    obtain ⟨h1, h2, h3⟩ := h
    cases rest with
    | nil => simp
    | cons w' rest' =>
      refine List.Chain'.cons ?_ (ih w.2 b h3)
      exact h3.1.symm

/-- The windows of a tiling are pairwise ordered-disjoint: an earlier
window ends no later than a later one starts, so the half-open intervals
never overlap. -/
theorem tiles_pairwise (ws : List (Int × Int)) :
    ∀ a b : Int, tiles a ws b → ws.Pairwise (fun u v => u.2 ≤ v.1) := by
  induction ws with
  | nil => intro a b _; exact List.Pairwise.nil
  | cons w rest ih =>
    intro a b h
    obtain ⟨h1, h2, h3⟩ := h
    refine List.Pairwise.cons ?_ (ih w.2 b h3)
    intro u hu
    exact (tiles_bounds rest w.2 b h3 u hu).1

/-- The durations of a tiling sum to the tiled duration. -/
theorem tiles_sum (ws : List (Int × Int)) :
    ∀ a b : Int, tiles a ws b →
      ((ws.map fun w => w.2 - w.1).sum) = b - a := by
  induction ws with
  | nil =>
    intro a b h
    cases h
    simp
  | cons w rest ih =>
    intro a b h
    obtain ⟨h1, h2, h3⟩ := h
    have := ih w.2 b h3
    simp only [List.map_cons, List.sum_cons, this]
    omega

/-- The leaf windows of an error-free subdivision tile the requested
window. -/
theorem fetch_leaves_tiles (c : Client) (hok : ∀ a b : Int, (c a b).2 = none)
    (s e : Int) (h : s ≤ e) : tiles s (fetch_leaves c s e) e := by
  by_cases hA : e - s ≤ MIN_INTERVAL
  · rw [fetch_leaves, if_pos hA]
    exact ⟨rfl, h, rfl⟩
  · rw [fetch_leaves, if_neg hA]
    rcases hc : c s e with ⟨rs, errv⟩
    have h2 := hok s e
    rw [hc] at h2
    subst h2
    show tiles s
      (if rs.length < MAX_RESULTS then [(s, e)]
       else fetch_leaves c s (mid_time s e) ++
         fetch_leaves c (mid_time s e) e) e
    by_cases hl : rs.length < MAX_RESULTS
    · rw [if_pos hl]
      exact ⟨rfl, h, rfl⟩
    · rw [if_neg hl]
      have hm := mid_time_between s e (by omega)
      exact tiles_append _ s (mid_time s e) e _
        (fetch_leaves_tiles c hok s (mid_time s e) (le_of_lt hm.1))
        (fetch_leaves_tiles c hok (mid_time s e) e (le_of_lt hm.2))
termination_by (e - s).toNat
decreasing_by
  all_goals first
    | exact mid_time_dec_left s e (by assumption)
    | exact mid_time_dec_right s e (by assumption)

/-- C4: for an error-free client, the leaf windows of the subdivision
tile the requested window exactly: they run left to right from `s` to
`e`, each leaf's end is the next leaf's start (the midpoint bounds the
left leaf exclusively and the right leaf inclusively), the leaf durations
sum to the total duration, and the half-open leaves are pairwise
non-overlapping.  The partition is deterministic because `fetch_leaves`
is a function of the window and the client's answers alone. -/
theorem extract_partition (c : Client) (hok : ∀ a b : Int, (c a b).2 = none)
    (s e : Int) (h : s ≤ e) :
    tiles s (fetch_leaves c s e) e ∧
    List.Chain' (fun u v => u.2 = v.1) (fetch_leaves c s e) ∧
    ((fetch_leaves c s e).map fun w => w.2 - w.1).sum = e - s ∧
    (fetch_leaves c s e).Pairwise (fun u v => u.2 ≤ v.1) := by
  have ht := fetch_leaves_tiles c hok s e h
  exact ⟨ht, tiles_chain _ s e ht, tiles_sum _ s e ht, tiles_pairwise _ s e ht⟩

/-- C4 witness: the one-microsecond window against the always-empty
client. -/
theorem extract_partition_witness :
    tiles 0 (fetch_leaves emptyClient 0 1) 1 ∧
    List.Chain' (fun u v => u.2 = v.1) (fetch_leaves emptyClient 0 1) ∧
    ((fetch_leaves emptyClient 0 1).map fun w => w.2 - w.1).sum = 1 - 0 ∧
    (fetch_leaves emptyClient 0 1).Pairwise (fun u v => u.2 ≤ v.1) :=
  extract_partition emptyClient (fun _ _ => rfl) 0 1 (by norm_num)

/-- C6 counterexample: a transport success (status 200) whose body parses
to a JSON object of unexpected shape (no `"data"` key) makes
`fetch_newrelic_data` return an empty *successful* page — no error —
because every `.get` in the extraction chain falls back to its default. -/
theorem client_shape_error_cex :
    fetch_newrelic_data (.resp 200 (some (.obj [("foo", .num 1)]))) =
      some (.arr [], none) := rfl

/-- C6 amended: `fetch_newrelic_data` returns a descriptive error exactly
on a raised `RequestException` (transport failure), an HTTP status in
`[400, 600)` (the band `raise_for_status` raises on — a status outside
it, such as 600, falls through to the parse path and can succeed), a
body that is not valid JSON, or a JSON body that is not an object.  A
JSON object lacking the expected nesting is *not* an error: missing keys
fall back to `.get` defaults and the call returns an empty successful
result, while an object whose intermediate value is present but not
itself an object raises an uncaught `AttributeError`. -/
theorem client_error_classification :
    (∀ msg, fetch_newrelic_data (.exc msg) =
      some (.arr [], some ("Erro na requisição: " ++ msg))) ∧
    (∀ (status : Nat) (body : Option Json), 400 ≤ status → status < 600 →
      fetch_newrelic_data (.resp status body) =
        some (.arr [], some ("Erro na requisição: HTTP " ++ toString status))) ∧
    (∀ status : Nat, ¬(400 ≤ status ∧ status < 600) →
      fetch_newrelic_data (.resp status none) =
        some (.arr [],
          some ("Erro: Resposta da API não é um JSON válido (" ++
            toString status ++ ")"))) ∧
    (∀ (status : Nat) (j : Json), ¬(400 ≤ status ∧ status < 600) →
      j.isObj = false →
      fetch_newrelic_data (.resp status (some j)) =
        some (.arr [],
          some "Erro: Resposta da API não contém um dicionário válido")) ∧
    fetch_newrelic_data (.resp 200 (some (.obj []))) = some (.arr [], none) ∧
    fetch_newrelic_data (.resp 600 (some (.obj []))) = some (.arr [], none) ∧
    fetch_newrelic_data (.resp 200 (some (.obj [("data", .null)]))) = none := by
  refine ⟨fun msg => rfl, ?_, ?_, ?_, rfl, rfl, rfl⟩
  · intro status body h1 h2
    simp only [fetch_newrelic_data]
    rw [if_pos ⟨h1, h2⟩]
  · intro status hs
    simp only [fetch_newrelic_data]
    rw [if_neg hs]
  · intro status j hs hj
    simp only [fetch_newrelic_data]
    rw [if_neg hs]
    simp [hj]

/-- C6 amended witness: each error branch at a concrete input. -/
theorem client_error_classification_witness :
    fetch_newrelic_data (.exc "x") =
      some (.arr [], some ("Erro na requisição: " ++ "x")) ∧
    fetch_newrelic_data (.resp 500 none) =
      some (.arr [], some ("Erro na requisição: HTTP " ++ toString 500)) ∧
    fetch_newrelic_data (.resp 200 none) =
      some (.arr [],
        some ("Erro: Resposta da API não é um JSON válido (" ++
          toString 200 ++ ")")) ∧
    fetch_newrelic_data (.resp 200 (some (.num 3))) =
      some (.arr [],
        some "Erro: Resposta da API não contém um dicionário válido") :=
  ⟨client_error_classification.1 "x",
   client_error_classification.2.1 500 none (by norm_num) (by norm_num),
   client_error_classification.2.2.1 200 (by omega),
   client_error_classification.2.2.2.1 200 (.num 3) (by omega) rfl⟩

/-- C7: the final stable sort by the integer `timestamp` key leaves the
sequence non-decreasing under that key; in particular, when records carry
their millisecond timestamps, it is non-decreasing by timestamp; and any
CSV attachment the route produces carries a sequence that is
non-decreasing under the key. -/
theorem chronological_output :
    (∀ results : List Record,
      List.Pairwise (fun a b => timestamp_key a ≤ timestamp_key b)
        (sort_by_timestamp results)) ∧
    (∀ results : List Record,
      List.Pairwise
        (fun a b => ∀ ta tb, a.timestamp = some ta →
          b.timestamp = some tb → ta ≤ tb)
        (sort_by_timestamp results)) ∧
    (∀ (c : Client) (cid : String) (s e : Int) (rows : List Record),
      csv_download c cid s e = .csvFile rows →
      List.Pairwise (fun a b => timestamp_key a ≤ timestamp_key b) rows) := by
  have hsorted : ∀ results : List Record,
      List.Pairwise (fun a b => timestamp_key a ≤ timestamp_key b)
        (sort_by_timestamp results) := by
    intro results
    have h := @List.sorted_mergeSort Record
      (fun a b => decide (timestamp_key a ≤ timestamp_key b))
      (fun a b c h1 h2 => by
        simp only [decide_eq_true_eq] at *
        omega)
      (fun a b => by
        rcases le_total (timestamp_key a) (timestamp_key b) with h | h <;>
          simp [h])
      results
    exact h.imp (by simp)
  refine ⟨hsorted, ?_, ?_⟩
  · intro results
    refine (hsorted results).imp ?_
    intro a b hab ta tb hta htb
    unfold timestamp_key at hab
    rw [hta, htb] at hab
    simpa using hab
  · intro c cid s e rows h
    rw [csv_download] at h
    by_cases hcid : cid = "" ∨ strip cid = ""
    · rw [if_pos hcid] at h
      cases h
    · rw [if_neg hcid] at h
      by_cases hspan : HOURS_24 < e - s
      · rw [if_pos hspan] at h
        cases h
      · rw [if_neg hspan] at h
        rcases hf : fetch_recursive c s e with ⟨rs, ev⟩
        rw [hf] at h
        cases ev with
        | some msg => cases h
        | none =>
          by_cases hemp : rs.isEmpty
          · simp only [if_pos hemp] at h
            cases h
          · simp only [if_neg hemp] at h
            cases h
            exact hsorted rs

/-- C7 witness: one record through the route yields a sorted CSV. -/
theorem chronological_output_witness :
    List.Pairwise (fun a b => timestamp_key a ≤ timestamp_key b)
      (sort_by_timestamp [{ timestamp := some 5 }]) := by
  refine chronological_output.2.2 oneRecordClient "x" 0 0
    (sort_by_timestamp [{ timestamp := some 5 }]) ?_
  have hf : fetch_recursive oneRecordClient 0 0 =
      ([{ timestamp := some 5 }], none) := by
    rw [fetch_recursive]
    norm_num [MIN_INTERVAL, oneRecordClient]
  rw [csv_download, if_neg (by decide), if_neg (by decide), hf]
  rfl

/-- C8: any parsed window spanning strictly more than 24 hours is
answered with a rendered validation-error page (either the span message
or, for a blank company identifier, the company message) and the
extractor is never invoked: the route makes zero client calls. -/
theorem validation_rejects_long_window (c : Client) (cid : String)
    (s e : Int) (h : HOURS_24 < e - s) :
    (∃ msg, csv_download c cid s e = .page (some msg) none) ∧
    csv_download_calls c cid s e = [] := by
  rw [csv_download, csv_download_calls]
  by_cases hcid : cid = "" ∨ strip cid = ""
  · rw [if_pos hcid, if_pos hcid]
    exact ⟨⟨_, rfl⟩, rfl⟩
  · rw [if_neg hcid, if_neg hcid, if_pos h, if_pos h]
    exact ⟨⟨_, rfl⟩, rfl⟩

/-- C8 witness: a window one microsecond over 24 hours is rejected with
no client call. -/
theorem validation_rejects_long_window_witness :
    (∃ msg, csv_download emptyClient "x" 0 (HOURS_24 + 1) =
      .page (some msg) none) ∧
    csv_download_calls emptyClient "x" 0 (HOURS_24 + 1) = [] :=
  validation_rejects_long_window emptyClient "x" 0 (HOURS_24 + 1) (by omega)

/-- When the extraction fails, its record component is empty, for any
client that reports errors with an empty list the way
`fetch_newrelic_data` does. -/
theorem fetch_error_nil (c : Client)
    (hwf : ∀ a b : Int, (c a b).2.isSome → (c a b).1 = [])
    (s e : Int) (h : (fetch_recursive c s e).2.isSome) :
    (fetch_recursive c s e).1 = [] := by
  by_cases hA : e - s ≤ MIN_INTERVAL
  · rw [fetch_recursive, if_pos hA] at h ⊢
    exact hwf s e h
  · rw [fetch_recursive, if_neg hA] at h ⊢
    rcases hc : c s e with ⟨rs, ev⟩
    rw [hc] at h
    cases ev with
    | some msg =>
      have := hwf s e (by rw [hc]; rfl)
      rw [hc] at this
      exact this
    | none =>
      by_cases hl : rs.length < MAX_RESULTS
      · simp only [if_pos hl] at h
        simp at h
      · simp only [if_neg hl] at h ⊢
        rcases hL : fetch_recursive c s (mid_time s e) with ⟨lr, le⟩
        rw [hL] at h
        cases le with
        | some msg =>
          have := fetch_error_nil c hwf s (mid_time s e) (by rw [hL]; rfl)
          rw [hL] at this
          exact this
        | none =>
          rcases hR : fetch_recursive c (mid_time s e) e with ⟨rr, re⟩
          rw [hR] at h
          cases re with
          | some msg =>
            have := fetch_error_nil c hwf (mid_time s e) e (by rw [hR]; rfl)
            rw [hR] at this
            exact this
          | none => simp at h
termination_by (e - s).toNat
decreasing_by
  all_goals first
    | exact mid_time_dec_left s e (by assumption)
    | exact mid_time_dec_right s e (by assumption)

/-- C9: for a validated request (non-blank company, window within 24
hours) against a client that reports errors the way
`fetch_newrelic_data` does, the route renders an empty successful
extraction as the page with no error and the empty result list (the
"no results" note, no CSV), renders a failed extraction as the page
carrying the error (and the empty record list, no CSV), and the two
renderings are never equal. -/
theorem no_conflation (c : Client)
    (hwf : ∀ a b : Int, (c a b).2.isSome → (c a b).1 = [])
    (cid : String) (s e : Int)
    (hcid : ¬(cid = "" ∨ strip cid = ""))
    (hspan : ¬ HOURS_24 < e - s) :
    (fetch_recursive c s e = ([], none) →
      csv_download c cid s e = .page none (some [])) ∧
    (∀ err, (fetch_recursive c s e).2 = some err →
      csv_download c cid s e = .page (some err) (some [])) ∧
    (∀ err, CsvResponse.page none (some ([] : List Record)) ≠
      .page (some err) (some [])) := by
  refine ⟨?_, ?_, by simp⟩
  · intro hf
    rw [csv_download, if_neg hcid, if_neg hspan, hf]
    rfl
  · intro err herr
    have h1 : (fetch_recursive c s e).1 = [] :=
      fetch_error_nil c hwf s e (by rw [herr]; rfl)
    rw [csv_download, if_neg hcid, if_neg hspan]
    rcases hf : fetch_recursive c s e with ⟨rs, ev⟩
    rw [hf] at herr h1
    simp only at herr h1
    subst herr
    subst h1
    rfl

/-- C9 witness: the failing client renders the error page with the empty
record list. -/
theorem no_conflation_witness :
    csv_download errClient "x" 0 0 = .page (some "boom") (some []) :=
  (no_conflation errClient (fun _ _ _ => rfl) "x" 0 0 (by decide)
    (by decide)).2.1 "boom"
    (by rw [fetch_recursive]; norm_num [MIN_INTERVAL, errClient])

/-- C10: a window with `end < start` has negative duration, so it passes
the 24-hour span check and reaches the extractor; the extractor treats it
as at-or-below the granularity floor, issues exactly one client call on
exactly that reversed window — violating the client's `start ≤ end`
precondition — returns the client's page unchanged, and raises no error
of its own; through the route (with a non-blank company identifier) that
single reversed call is exactly what the client receives. -/
theorem reversed_window_reaches_client (c : Client) (cid : String)
    (s e : Int) (h : e < s) :
    fetch_recursive c s e = c s e ∧
    fetch_calls c s e = [(s, e)] ∧
    (¬(cid = "" ∨ strip cid = "") →
      csv_download_calls c cid s e = [(s, e)]) := by
  have hA : e - s ≤ MIN_INTERVAL := by unfold MIN_INTERVAL; omega
  refine ⟨by rw [fetch_recursive, if_pos hA],
    by rw [fetch_calls, if_pos hA], ?_⟩
  intro hcid
  rw [csv_download_calls, if_neg hcid, if_neg (by unfold HOURS_24; omega),
    fetch_calls, if_pos hA]

/-- C10 witness: the reversed window `[1, 0)` reaches the client through
the route. -/
theorem reversed_window_reaches_client_witness :
    fetch_recursive emptyClient 1 0 = emptyClient 1 0 ∧
    fetch_calls emptyClient 1 0 = [(1, 0)] ∧
    csv_download_calls emptyClient "x" 1 0 = [(1, 0)] := by
  have h := reversed_window_reaches_client emptyClient "x" 1 0 (by norm_num)
  exact ⟨h.1, h.2.1, h.2.2 (by decide)⟩

end NewRelli
